import Mathlib

/-!
Verification development for a small interactive shell (`src/main.py`).

The embedding models the program's pure core faithfully:

* `shlexSplit`      — Python `shlex.split` (posix mode, whitespace_split),
  the tokenizer used by `Shell.run`;
* `parse_redirection` — `RedirectionManager.parse_redirection`;
* `find_executable` — `Shell.find_executable`;
* `computeMatches`, `lcpOf`, `complete` — the `Completer` class;
* `handle_exit`, `handle_echo`, `handle_type`, `runExternal`, `dispatch`,
  `runLine` — `CommandHandler`, `Shell.run_external` and one iteration of
  the `Shell.run` REPL loop.

Filesystem and environment access (`os.environ["PATH"]`, `os.listdir`,
`os.path.isfile`, `os.access`, `open`) is abstracted into an `Env` record of
boolean oracles; `Env.path` is the already-split search path.  Python
exceptions are modelled with `Except`: `PyErr` covers `ValueError`
(shlex), `IndexError` (list indexing), `TypeError` (illegal `+` between a
`str` and a `list`) and `OSError` (failing `open`); `SystemExit` raised by
`sys.exit` is a separate constructor since the process treats it as a clean
exit.  An uncaught exception in `Shell.run` terminates the process, which
`runLine` reports as the outcome `RunOutcome.crashed`.

Strings are Lean `String`s; the helpers `strDrop`, `strStartsWith` and the
lexicographic order `chrLe`/`strLeRel` mirror Python slicing, `startswith`
and `<` on `str` (code-point lexicographic), implemented over `String.data`
so that every definition evaluates by `rfl`/`decide`.
-/

/-- Python file-open mode: `"w"` (truncate) or `"a"` (append). -/
inductive Mode where
  | w
  | a
deriving DecidableEq

/-- Python exceptions that the shell's code can raise. -/
inductive PyErr where
  | valueError
  | indexError
  | typeError
  | osError
deriving DecidableEq

/-- An exception in flight: either a `PyErr` or `SystemExit` from `sys.exit`. -/
inductive PyExc where
  | exc (e : PyErr)
  | systemExit (code : Nat)
deriving DecidableEq

/-- Observable side effects of a dispatch (file writes carry the open mode,
so that truncate-vs-append behaviour is visible). -/
inductive Effect where
  | fileWrite (path : String) (m : Mode) (content : String)
  | fileTouch (path : String) (m : Mode)
  | termOut (s : String)
  | termErr (s : String)
  | spawn (path : String) (argv : List String)
deriving DecidableEq

/-- Outcome of one iteration of the `Shell.run` loop on one input line:
continue to the next prompt, terminate cleanly (`sys.exit`), or terminate
with an uncaught exception (Python prints a traceback and the process dies). -/
inductive RunOutcome where
  | next
  | exited (code : Nat)
  | crashed (e : PyErr)
deriving DecidableEq

/-- Abstraction of the filesystem / environment as seen by the shell.
`path` is `os.environ["PATH"].split(os.pathsep)`; `isdir d` is
`os.path.isdir(d)`; `listdir d = none` models `os.listdir` raising
`PermissionError`; `isfile d n` is `os.path.isfile(os.path.join(d, n))`;
`xok d n` is `os.access(os.path.join(d, n), os.X_OK)`; `openFail f` says
`open(f, mode)` raises `OSError` (for either mode). -/
structure Env where
  path : List String
  isdir : String → Bool
  listdir : String → Option (List String)
  isfile : String → String → Bool
  xok : String → String → Bool
  openFail : String → Bool

/-- `Shell.builtins = ["echo", "type", "exit"]`. -/
def builtins : List String := ["echo", "type", "exit"]

/-- Python string slicing `s[n:]` (by code points). -/
def strDrop (s : String) (n : Nat) : String := String.mk (s.data.drop n)

/-- Python `s.startswith(pre)`. -/
def strStartsWith (s pre : String) : Bool := pre.data.isPrefixOf s.data

/-- Code-point lexicographic `≤` on char lists (Python `str` comparison). -/
def chrLe : List Char → List Char → Bool
  | [], _ => true
  | _ :: _, [] => false
  | a :: as, b :: bs => if a = b then chrLe as bs else decide (a < b)

/-- Lexicographic `≤` on strings, as a relation for sorting. -/
def strLeRel (a b : String) : Prop := chrLe a.data b.data = true

instance : DecidableRel strLeRel :=
  fun a b => inferInstanceAs (Decidable (chrLe a.data b.data = true))

/-- The single-quote character. -/
def chSq : Char := Char.ofNat 39

/-- The double-quote character. -/
def chDq : Char := Char.ofNat 34

/-- The backslash character. -/
def chBs : Char := Char.ofNat 92

/-- `shlex.whitespace = " \t\r\n"`: the separator set of the tokenizer. -/
def isShlexWs (c : Char) : Bool :=
  c == ' ' || c == '\t' || c == '\r' || c == '\n'

/-- Whitespace for Python `str.split()` with no arguments (used by
`Shell.run` for its blank-line check). -/
def pySplitWs (c : Char) : Bool :=
  [' ', '\t', '\n', '\r', '\x0b', '\x0c', '\x1c', '\x1d', '\x1e', '\x1f',
   '\x85', '\xa0', ' ', ' ', ' ', ' ', ' ',
   ' ', ' ', ' ', ' ', ' ', ' ', ' ',
   ' ', ' ', ' ', ' ', '　'].contains c

/-- States of the `shlex` scanner in posix + whitespace_split mode:
between tokens, inside an unquoted word, inside single/double quotes,
after a backslash in unquoted context, after a backslash inside double
quotes.  (Single quotes have no escapes in posix `shlex`.) -/
inductive SState where
  | ws
  | word
  | squote
  | dquote
  | escA
  | escDq
deriving DecidableEq

/-- The `shlex` scanner: input characters, state, current token, the
"token was quoted" flag, accumulated tokens.  Unterminated quoting and a
trailing backslash raise `ValueError`, exactly as CPython's
`shlex.read_token` does ("No closing quotation" / "No escaped character");
a posix token is emitted when it is nonempty or was quoted. -/
def shlexCore : List Char → SState → List Char → Bool → List String →
    Except PyErr (List String)
  | [], st, tok, quoted, acc =>
    match st with
    | .squote => .error .valueError
    | .dquote => .error .valueError
    | .escA => .error .valueError
    | .escDq => .error .valueError
    | _ => .ok (if tok ≠ [] || quoted then acc ++ [String.mk tok] else acc)
  | c :: rest, .ws, tok, quoted, acc =>
    if isShlexWs c then shlexCore rest .ws tok quoted acc
    else if c == chBs then shlexCore rest .escA tok true acc
    else if c == chSq then shlexCore rest .squote tok true acc
    else if c == chDq then shlexCore rest .dquote tok true acc
    else shlexCore rest .word (tok ++ [c]) quoted acc
  | c :: rest, .word, tok, quoted, acc =>
    if isShlexWs c then
      shlexCore rest .ws [] false
        (if tok ≠ [] || quoted then acc ++ [String.mk tok] else acc)
    else if c == chSq then shlexCore rest .squote tok true acc
    else if c == chDq then shlexCore rest .dquote tok true acc
    else if c == chBs then shlexCore rest .escA tok true acc
    else shlexCore rest .word (tok ++ [c]) quoted acc
  | c :: rest, .squote, tok, quoted, acc =>
    if c == chSq then shlexCore rest .word tok quoted acc
    else shlexCore rest .squote (tok ++ [c]) quoted acc
  | c :: rest, .dquote, tok, quoted, acc =>
    if c == chDq then shlexCore rest .word tok quoted acc
    else if c == chBs then shlexCore rest .escDq tok quoted acc
    else shlexCore rest .dquote (tok ++ [c]) quoted acc
  | c :: rest, .escA, tok, quoted, acc =>
    shlexCore rest .word (tok ++ [c]) quoted acc
  | c :: rest, .escDq, tok, quoted, acc =>
    if c == chBs || c == chDq then shlexCore rest .dquote (tok ++ [c]) quoted acc
    else shlexCore rest .dquote (tok ++ [chBs, c]) quoted acc

/-- `shlex.split(line)` (posix mode), as called by `Shell.run`. -/
def shlexSplit (line : String) : Except PyErr (List String) :=
  shlexCore line.data .ws [] false []

/-- Classify a redirection operator token, transliterating the elif-chain
of `RedirectionManager.parse_redirection` (lines 21-36 of the source):
`some (isStdout, mode)` for the six recognized operators `>`, `1>`, `>>`,
`1>>`, `2>`, `2>>`, and `none` for every other word. -/
def opStream (p : String) : Option (Bool × Mode) :=
  if p = ">" || p = "1>" then some (true, .w)
  else if p = ">>" || p = "1>>" then some (true, .a)
  else if p = "2>" then some (false, .w)
  else if p = "2>>" then some (false, .a)
  else none

/-- The scanning loop of `RedirectionManager.parse_redirection`, with the
mutable locals (`cmd_parts`, `stdout_file`, `stdout_mode`, `stderr_file`,
`stderr_mode`) as accumulator arguments: an operator token (classified by
`opStream`) sets its stream's file and mode from the next word and skips
both; any other word is appended to `cmd_parts`.  `parts[i + 1]` past the
end of the list raises `IndexError`. -/
def parseGo : List String → List String → Option String → Mode →
    Option String → Mode →
    Except PyErr (List String × Option String × Mode × Option String × Mode)
  | [], acc, so, sm, se, sem => .ok (acc, so, sm, se, sem)
  | p :: rest, acc, so, sm, se, sem =>
    match opStream p with
    | some (true, m) =>
      match rest with
      | [] => .error .indexError
      | t :: rest2 => parseGo rest2 acc (some t) m se sem
    | some (false, m) =>
      match rest with
      | [] => .error .indexError
      | t :: rest2 => parseGo rest2 acc so sm (some t) m
    | none => parseGo rest (acc ++ [p]) so sm se sem

/-- `RedirectionManager.parse_redirection(parts)`. -/
def parse_redirection (parts : List String) :
    Except PyErr (List String × Option String × Mode × Option String × Mode) :=
  parseGo parts [] none .w none .w

/-- "Last occurrence wins": keep the target found further right (the value
already computed from the rest of the list), otherwise use this one. -/
def keepLater (later : Option (String × Mode)) (t : String) (m : Mode) :
    Option (String × Mode) :=
  match later with
  | some x => some x
  | none => some (t, m)

/-- Modelled from the spec's words (section 4.2), for comparison with
`parse_redirection`: scan left to right; each recognized operator consumes
itself and the immediately following word as its target; all other words
go to the command vector in order; the last operator for a stream
determines that stream's target and mode; an operator with no following
word is a parse failure. -/
def specParse : List String →
    Option (List String × Option (String × Mode) × Option (String × Mode))
  | [] => some ([], none, none)
  | p :: rest =>
    match opStream p with
    | some sm =>
      match rest with
      | [] => none
      | t :: rest2 =>
        match specParse rest2 with
        | none => none
        | some (c, so, se) =>
          if sm.1 then some (c, keepLater so t sm.2, se)
          else some (c, so, keepLater se t sm.2)
    | none =>
      match specParse rest with
      | none => none
      | some (c, so, se) => some (p :: c, so, se)

/-- Project a spec-level optional target to the code's target path
(defaulting to the given earlier value). -/
def pickPath (o : Option (String × Mode)) (d : Option String) : Option String :=
  match o with
  | some x => some x.1
  | none => d

/-- Project a spec-level optional target to the code's mode variable
(defaulting to the given earlier value). -/
def pickMode (o : Option (String × Mode)) (d : Mode) : Mode :=
  match o with
  | some x => x.2
  | none => d

/-- The directory loop of `Shell.find_executable`. -/
def findExecGo (env : Env) (p : String) : List String → Option String
  | [] => none
  | d :: ds =>
    if env.isfile d p && env.xok d p then some (d ++ "/" ++ p)
    else findExecGo env p ds

/-- `Shell.find_executable(program)`: first search-path directory whose
joined path is a regular file with execute permission. -/
def find_executable (env : Env) (p : String) : Option String :=
  findExecGo env p env.path

/-- The directory scan of `Completer.compute_matches`: for each `PATH`
directory that is a directory, list it (skipping it on `PermissionError`)
and keep entries that start with the prefix and have execute permission. -/
def scanDirs (env : Env) (text : String) : List String → List String
  | [] => []
  | d :: ds =>
    (if env.isdir d then
      match env.listdir d with
      | some l => l.filter (fun f => strStartsWith f text && env.xok d f)
      | none => []
    else []) ++ scanDirs env text ds

/-- `Completer.compute_matches`' candidate list:
`sorted(external | set(builtin_matches))` — the union of executable names
matching the prefix anywhere on the search path and built-in names matching
the prefix, deduplicated and sorted lexicographically. -/
def computeMatches (env : Env) (text : String) : List String :=
  List.insertionSort strLeRel
    ((scanDirs env text env.path ++
      builtins.filter (fun b => strStartsWith b text)).dedup)

/-- The index loop of `Completer.longest_common_prefix`: advance `i` while
`i < min_len` and all strings agree at position `i`.  The fuel argument is
`min_len - i`, so the function is structural and evaluates by `rfl`. -/
def lcpLoop (ms : List String) (first : List Char) : Nat → Nat → Nat
  | 0, i => i
  | fuel + 1, i =>
    if ms.all (fun s => s.data.getD i ' ' == first.getD i ' ') then
      lcpLoop ms first fuel (i + 1)
    else i

/-- `Completer.longest_common_prefix(matches)`. -/
def lcpOf (ms : List String) : String :=
  match ms with
  | [] => ""
  | m :: rest =>
    String.mk (m.data.take
      (lcpLoop ms m.data ((rest.map String.length).foldr min m.length) 0))

/-- `Completer.matches_cache`: last queried prefix, its candidate list and
their longest common prefix. -/
structure Cache where
  text : String
  matchList : List String
  lcp : String
deriving DecidableEq

/-- The cache as initialized by `Completer.__init__`. -/
def initCache : Cache := { text := "", matchList := [], lcp := "" }

/-- The cache written by `Completer.compute_matches(text)`. -/
def computeCache (env : Env) (text : String) : Cache :=
  { text := text
    matchList := computeMatches env text
    lcp := lcpOf (computeMatches env text) }

/-- The cache in effect inside `Completer.complete`: recomputed when
`state == 0 or text != self.matches_cache["text"]`, otherwise reused. -/
def effCache (env : Env) (cache : Cache) (text : String) (state : Nat) : Cache :=
  if state = 0 ∨ text ≠ cache.text then computeCache env text else cache

/-- Result of one `Completer.complete` call: a returned value (readline's
`str` or `None`) together with whether the bell (`'\a'`) was written, or an
uncaught exception. -/
inductive CompOut where
  | ret (r : Option String) (bell : Bool)
  | err (e : PyErr)
deriving DecidableEq

/-- The body of `Completer.complete` after the cache update.  The branch
for repeated requests evaluates Python's
`" ".join(matches[state] + [state - 1][len(text):])`: when
`state - 1 < len(matches)`, `matches[state]` raises `IndexError` if
`state == len(matches)`, and otherwise the `+` of a `str` and a `list`
raises `TypeError`; past that guard the function returns `None`. -/
def completeWith (c : Cache) (text : String) (state : Nat) : CompOut × Cache :=
  match c.matchList with
  | [] => (.ret none true, c)
  | [m] => (.ret (some (strDrop m text.length ++ " ")) false, c)
  | _ :: _ :: _ =>
    if state = 0 then
      if text.length < c.lcp.length then
        (.ret (some (strDrop c.lcp text.length)) false, c)
      else (.ret none true, c)
    else
      if state - 1 < c.matchList.length then
        (.err (if state < c.matchList.length then .typeError else .indexError), c)
      else (.ret none false, c)

/-- `Completer.complete(text, state)`. -/
def complete (env : Env) (cache : Cache) (text : String) (state : Nat) :
    CompOut × Cache :=
  completeWith (effCache env cache text state) text state

/-- `RedirectionManager.open_for_write(filename, mode)`:
fails with `OSError` when the environment says so.  (Parent-directory
creation is a side effect with no bearing on the claims.) -/
def openForWrite (env : Env) (f : String) (_m : Mode) : Except PyExc Unit :=
  if env.openFail f then .error (.exc .osError) else .ok ()

/-- `CommandHandler.handle_exit(parts)`: `parts[0]` on an empty vector
raises `IndexError`; on `"exit"` the call `sys.exit(0)` raises
`SystemExit(0)`; otherwise returns `False`. -/
def handle_exit (parts : List String) : Except PyExc Bool :=
  match parts with
  | [] => .error (.exc .indexError)
  | p :: _ => if p = "exit" then .error (.systemExit 0) else .ok false

/-- `CommandHandler.handle_echo`: joins the arguments with single spaces,
writes to the stdout target or terminal, and opens/closes the stderr
target (touching it) even though echo writes nothing to it. -/
def handle_echo (env : Env) (parts : List String) (so : Option String)
    (sm : Mode) (se : Option String) (sem : Mode) :
    Except PyExc (Bool × List Effect) :=
  match parts with
  | [] => .error (.exc .indexError)
  | p :: args =>
    if p = "echo" then
      match so with
      | some f =>
        match openForWrite env f sm with
        | .error e => .error e
        | .ok _ =>
          match se with
          | some g =>
            match openForWrite env g sem with
            | .error e => .error e
            | .ok _ =>
              .ok (true, [Effect.fileWrite f sm (String.intercalate " " args ++ "\n"),
                          Effect.fileTouch g sem])
          | none =>
            .ok (true, [Effect.fileWrite f sm (String.intercalate " " args ++ "\n")])
      | none =>
        match se with
        | some g =>
          match openForWrite env g sem with
          | .error e => .error e
          | .ok _ =>
            .ok (true, [Effect.termOut (String.intercalate " " args ++ "\n"),
                        Effect.fileTouch g sem])
        | none =>
          .ok (true, [Effect.termOut (String.intercalate " " args ++ "\n")])
    else .ok (false, [])

/-- The message `handle_type` produces for its first argument. -/
def typeReport (env : Env) (a : String) : String :=
  if a ∈ builtins then a ++ " is a shell builtin"
  else
    match find_executable env a with
    | some fp => a ++ " is " ++ fp
    | none => a ++ " not found"

/-- `CommandHandler.handle_type`: declines (`False`) unless the command is
`type` with at least one argument; reports builtin / resolved path / not
found, honoring only the stdout target. -/
def handle_type (env : Env) (parts : List String) (so : Option String)
    (sm : Mode) : Except PyExc (Bool × List Effect) :=
  match parts with
  | [] => .error (.exc .indexError)
  | p :: args =>
    if p = "type" then
      match args with
      | [] => .ok (false, [])
      | a :: _ =>
        match so with
        | some f =>
          match openForWrite env f sm with
          | .error e => .error e
          | .ok _ =>
            .ok (true, [Effect.fileWrite f sm (typeReport env a ++ "\n")])
        | none => .ok (true, [Effect.termOut (typeReport env a ++ "\n")])
    else .ok (false, [])

/-- Open an optional redirection target, recording a touch effect. -/
def openOpt (env : Env) (t : Option String) (m : Mode) :
    Except PyExc (List Effect) :=
  match t with
  | none => .ok []
  | some f =>
    match openForWrite env f m with
    | .error e => .error e
    | .ok _ => .ok [Effect.fileTouch f m]

/-- `Shell.run_external(parts, stdout_file, stderr_file, stdout_mode,
stderr_mode)`.  Note the not-found branch of the source opens the stderr
target with `stdout_mode` (`open_for_write(stderr_file, stdout_mode)`),
not with `stderr_mode`; the resolved branch opens each target with its own
mode and spawns the program. -/
def runExternal (env : Env) (parts : List String) (so : Option String)
    (se : Option String) (sm : Mode) (sem : Mode) :
    Except PyExc (List Effect) :=
  match parts with
  | [] => .error (.exc .indexError)
  | p :: _ =>
    match find_executable env p with
    | none =>
      match se with
      | some g =>
        match openForWrite env g sm with
        | .error e => .error e
        | .ok _ => .ok [Effect.fileWrite g sm (p ++ ": command not found\n")]
      | none => .ok [Effect.termErr (p ++ ": command not found\n")]
    | some fp =>
      match openOpt env so sm with
      | .error e => .error e
      | .ok ef1 =>
        match openOpt env se sem with
        | .error e => .error e
        | .ok ef2 => .ok (ef1 ++ ef2 ++ [Effect.spawn fp parts])

/-- The dispatch chain of `Shell.run`: `handle_exit`, then `handle_echo`,
then `handle_type`, then `run_external`; any exception propagates. -/
def dispatch (env : Env) (cmd : List String) (so : Option String) (sm : Mode)
    (se : Option String) (sem : Mode) : Except PyExc (List Effect) :=
  match handle_exit cmd with
  | .error e => .error e
  | .ok _ =>
    match handle_echo env cmd so sm se sem with
    | .error e => .error e
    | .ok (true, effs) => .ok effs
    | .ok (false, _) =>
      match handle_type env cmd so sm with
      | .error e => .error e
      | .ok (true, effs) => .ok effs
      | .ok (false, _) => runExternal env cmd so se sm sem

/-- One iteration of the `Shell.run` loop on one input line (after a line
was successfully read).  The only `try` in the loop guards `input()`
against `EOFError`, so any exception raised by tokenizing, redirection
parsing or dispatch is uncaught: the process terminates (`crashed`), and
`SystemExit` from the exit builtin terminates it cleanly (`exited`). -/
def runLine (env : Env) (line : String) : RunOutcome :=
  if line.data.all pySplitWs then .next
  else
    match shlexSplit line with
    | .error e => .crashed e
    | .ok parts =>
      match parse_redirection parts with
      | .error e => .crashed e
      | .ok (cmd, so, sm, se, sem) =>
        match dispatch env cmd so sm se sem with
        | .error (.systemExit n) => .exited n
        | .error (.exc e) => .crashed e
        | .ok _ => .next

/-- Filesystem coherence: a name that is a regular file inside a directory
also shows up when that directory is listed. -/
def Coherent (env : Env) : Prop :=
  ∀ d n, env.isfile d n = true →
    env.isdir d = true ∧ ∃ l, env.listdir d = some l ∧ n ∈ l

/-- A search path with one directory `b` holding two executables `top` and
`type` (the spec's worked completion example). -/
def envTop : Env :=
  { path := ["b"]
    isdir := fun d => d == "b"
    listdir := fun d => if d == "b" then some ["top", "type"] else none
    isfile := fun d n => d == "b" && (n == "top" || n == "type")
    xok := fun d n => d == "b" && (n == "top" || n == "type")
    openFail := fun _ => false }

/-- An empty search path (only built-ins complete) with all opens working. -/
def envEcho : Env :=
  { path := []
    isdir := fun _ => false
    listdir := fun _ => none
    isfile := fun _ _ => false
    xok := fun _ _ => false
    openFail := fun _ => false }

/-- An empty search path where opening the file `f` raises `OSError`. -/
def envOpenFail : Env :=
  { path := []
    isdir := fun _ => false
    listdir := fun _ => none
    isfile := fun _ _ => false
    xok := fun _ _ => false
    openFail := fun f => f == "f" }

/-- A search path with one directory `d` containing a single entry `sub`
that has the execute bit but is not a regular file (a subdirectory). -/
def envSubdir : Env :=
  { path := ["d"]
    isdir := fun x => x == "d"
    listdir := fun x => if x == "d" then some ["sub"] else none
    isfile := fun _ _ => false
    xok := fun x n => x == "d" && n == "sub"
    openFail := fun _ => false }

/-! ## Order lemmas for the lexicographic sort -/

theorem chrLe_total : ∀ as bs : List Char, chrLe as bs = true ∨ chrLe bs as = true := by
  intro as
  induction as with
  | nil => intro bs; left; rfl
  | cons a as ih =>
    intro bs
    cases bs with
    | nil => right; rfl
    | cons b bs =>
      by_cases hab : a = b
      · subst hab
        rcases ih bs with h | h
        · left; simpa [chrLe] using h
        · right; simpa [chrLe] using h
      · rcases lt_or_gt_of_ne hab with h | h
        · left; simp [chrLe, hab, h]
        · right
          have hba : b ≠ a := fun hh => hab hh.symm
          simp [chrLe, hba, h]

theorem chrLe_trans : ∀ as bs cs : List Char,
    chrLe as bs = true → chrLe bs cs = true → chrLe as cs = true := by
  intro as
  induction as with
  | nil => intro bs cs _ _; rfl
  | cons a as ih =>
    intro bs cs h1 h2
    cases bs with
    | nil => simp [chrLe] at h1
    | cons b bs =>
      cases cs with
      | nil => simp [chrLe] at h2
      | cons c cs =>
        by_cases hab : a = b
        · subst hab
          by_cases hac : a = c
          · subst hac
            simp only [chrLe, if_pos rfl] at h1 h2 ⊢
            exact ih bs cs h1 h2
          · simp only [chrLe, if_pos rfl] at h1
            simp only [chrLe, if_neg hac] at h2 ⊢
            exact h2
        · simp only [chrLe, if_neg hab, decide_eq_true_eq] at h1
          by_cases hbc : b = c
          · subst hbc
            simp only [chrLe, if_neg hab, decide_eq_true_eq]
            exact h1
          · simp only [chrLe, if_neg hbc, decide_eq_true_eq] at h2
            have hac : a < c := lt_trans h1 h2
            have hane : a ≠ c := ne_of_lt hac
            simp only [chrLe, if_neg hane, decide_eq_true_eq]
            exact hac

instance : IsTotal String strLeRel := ⟨fun a b => chrLe_total a.data b.data⟩

instance : IsTrans String strLeRel := ⟨fun a b c => chrLe_trans a.data b.data c.data⟩

/-! ## Helper lemmas about the embedding -/

theorem strStartsWith_empty (s : String) : strStartsWith s "" = true := by
  cases s with
  | mk data => cases data <;> rfl

theorem mem_scanChunk (env : Env) (text : String) (d s : String) :
    (s ∈ (if env.isdir d then
            match env.listdir d with
            | some l => l.filter (fun f => strStartsWith f text && env.xok d f)
            | none => []
          else ([] : List String))) ↔
      (env.isdir d = true ∧ ∃ l, env.listdir d = some l ∧ s ∈ l ∧
        (strStartsWith s text && env.xok d s) = true) := by
  cases hdir : env.isdir d
  · simp [hdir]
  · cases hl : env.listdir d
    · simp [hdir, hl]
    · simp [hdir, hl, List.mem_filter]

theorem mem_scanDirs (env : Env) (text : String) (s : String) :
    ∀ ds : List String,
      s ∈ scanDirs env text ds ↔
        ∃ d ∈ ds, env.isdir d = true ∧
          ∃ l, env.listdir d = some l ∧ s ∈ l ∧
            (strStartsWith s text && env.xok d s) = true := by
  intro ds
  induction ds with
  | nil => simp [scanDirs]
  | cons d ds ih =>
    simp only [scanDirs, List.mem_append, ih, mem_scanChunk, List.mem_cons]
    constructor
    · rintro (⟨hdir, l, hl, hm, hp⟩ | ⟨d', hd', rest⟩)
      · exact ⟨d, Or.inl rfl, hdir, l, hl, hm, hp⟩
      · exact ⟨d', Or.inr hd', rest⟩
    · rintro ⟨d', rfl | hd', rest⟩
      · exact Or.inl rest
      · exact Or.inr ⟨d', hd', rest⟩

theorem mem_computeMatches (env : Env) (text : String) (s : String) :
    s ∈ computeMatches env text ↔
      ((s ∈ builtins ∧ strStartsWith s text = true) ∨
       ∃ d ∈ env.path, env.isdir d = true ∧
         ∃ l, env.listdir d = some l ∧ s ∈ l ∧
           strStartsWith s text = true ∧ env.xok d s = true) := by
  unfold computeMatches
  rw [(List.perm_insertionSort strLeRel _).mem_iff, List.mem_dedup, List.mem_append,
    mem_scanDirs, List.mem_filter]
  constructor
  · rintro (⟨d, hd, hdir, l, hl, hm, hp⟩ | ⟨hb, hpre⟩)
    · rw [Bool.and_eq_true] at hp
      exact Or.inr ⟨d, hd, hdir, l, hl, hm, hp.1, hp.2⟩
    · exact Or.inl ⟨hb, hpre⟩
  · rintro (⟨hb, hpre⟩ | ⟨d, hd, hdir, l, hl, hm, hpre, hx⟩)
    · exact Or.inr ⟨hb, hpre⟩
    · exact Or.inl ⟨d, hd, hdir, l, hl, hm, by rw [Bool.and_eq_true]; exact ⟨hpre, hx⟩⟩

theorem sorted_computeMatches (env : Env) (text : String) :
    List.Sorted strLeRel (computeMatches env text) :=
  List.sorted_insertionSort strLeRel _

theorem nodup_computeMatches (env : Env) (text : String) :
    (computeMatches env text).Nodup :=
  ((List.perm_insertionSort strLeRel _).symm).nodup (List.nodup_dedup _)

theorem findExecGo_mem (env : Env) (p : String) :
    ∀ (ds : List String) (fp : String), findExecGo env p ds = some fp →
      ∃ d ∈ ds, env.isfile d p = true ∧ env.xok d p = true := by
  intro ds
  induction ds with
  | nil => intro fp h; simp [findExecGo] at h
  | cons d ds ih =>
    intro fp h
    by_cases hc : (env.isfile d p && env.xok d p) = true
    · rw [Bool.and_eq_true] at hc
      exact ⟨d, List.mem_cons_self d ds, hc.1, hc.2⟩
    · simp only [findExecGo] at h
      rw [if_neg hc] at h
      obtain ⟨d', hd', hf, hx⟩ := ih fp h
      exact ⟨d', List.mem_cons_of_mem d hd', hf, hx⟩

theorem pickPath_keepLater (so : Option (String × Mode)) (t : String) (m : Mode)
    (d : Option String) : pickPath (keepLater so t m) d = pickPath so (some t) := by
  cases so <;> rfl

theorem pickMode_keepLater (so : Option (String × Mode)) (t : String) (m : Mode)
    (d : Mode) : pickMode (keepLater so t m) d = pickMode so m := by
  cases so <;> rfl

/-! ## Step lemmas relating `parseGo` and `specParse` -/

theorem parseGo_op_true (p : String) (m : Mode) (t : String) (rest2 acc : List String)
    (so0 : Option String) (sm0 : Mode) (se0 : Option String) (sem0 : Mode)
    (h : opStream p = some (true, m)) :
    parseGo (p :: t :: rest2) acc so0 sm0 se0 sem0 =
      parseGo rest2 acc (some t) m se0 sem0 := by
  simp [parseGo, h]

theorem parseGo_op_false (p : String) (m : Mode) (t : String) (rest2 acc : List String)
    (so0 : Option String) (sm0 : Mode) (se0 : Option String) (sem0 : Mode)
    (h : opStream p = some (false, m)) :
    parseGo (p :: t :: rest2) acc so0 sm0 se0 sem0 =
      parseGo rest2 acc so0 sm0 (some t) m := by
  simp [parseGo, h]

theorem parseGo_op_last (p : String) (b : Bool) (m : Mode) (acc : List String)
    (so0 : Option String) (sm0 : Mode) (se0 : Option String) (sem0 : Mode)
    (h : opStream p = some (b, m)) :
    parseGo [p] acc so0 sm0 se0 sem0 = .error .indexError := by
  cases b <;> simp [parseGo, h]

theorem parseGo_word (p : String) (rest acc : List String)
    (so0 : Option String) (sm0 : Mode) (se0 : Option String) (sem0 : Mode)
    (h : opStream p = none) :
    parseGo (p :: rest) acc so0 sm0 se0 sem0 =
      parseGo rest (acc ++ [p]) so0 sm0 se0 sem0 := by
  simp [parseGo, h]

theorem specParse_op_last (p : String) (b : Bool) (m : Mode)
    (h : opStream p = some (b, m)) : specParse [p] = none := by
  simp [specParse, h]

theorem specParse_op_step (p : String) (b : Bool) (m : Mode) (t : String)
    (rest2 c : List String) (so se : Option (String × Mode))
    (h : opStream p = some (b, m)) (hs : specParse rest2 = some (c, so, se)) :
    specParse (p :: t :: rest2) =
      if b then some (c, keepLater so t m, se)
      else some (c, so, keepLater se t m) := by
  simp [specParse, h, hs]

theorem specParse_op_step_none (p : String) (b : Bool) (m : Mode) (t : String)
    (rest2 : List String) (h : opStream p = some (b, m))
    (hs : specParse rest2 = none) : specParse (p :: t :: rest2) = none := by
  simp [specParse, h, hs]

theorem specParse_word_step (p : String) (rest c : List String)
    (so se : Option (String × Mode)) (h : opStream p = none)
    (hs : specParse rest = some (c, so, se)) :
    specParse (p :: rest) = some (p :: c, so, se) := by
  simp [specParse, h, hs]

theorem specParse_word_step_none (p : String) (rest : List String)
    (h : opStream p = none) (hs : specParse rest = none) :
    specParse (p :: rest) = none := by
  simp [specParse, h, hs]

theorem parseGo_specParse :
    ∀ (fuel : Nat) (parts : List String), parts.length ≤ fuel →
      ∀ (acc : List String) (so0 : Option String) (sm0 : Mode)
        (se0 : Option String) (sem0 : Mode),
        (specParse parts = none →
          parseGo parts acc so0 sm0 se0 sem0 = .error .indexError) ∧
        (∀ c so se, specParse parts = some (c, so, se) →
          parseGo parts acc so0 sm0 se0 sem0 =
            .ok (acc ++ c, pickPath so so0, pickMode so sm0,
                 pickPath se se0, pickMode se sem0)) := by
  intro fuel
  induction fuel with
  | zero =>
    intro parts hlen acc so0 sm0 se0 sem0
    have hnil : parts = [] := List.length_eq_zero.mp (Nat.le_zero.mp hlen)
    subst hnil
    refine ⟨fun h => ?_, fun c so se h => ?_⟩
    · simp [specParse] at h
    · simp only [specParse, Option.some.injEq, Prod.mk.injEq] at h
      obtain ⟨hc, hso, hse⟩ := h
      subst hc; subst hso; subst hse
      simp [parseGo, pickPath, pickMode]
  | succ n ih =>
    intro parts hlen acc so0 sm0 se0 sem0
    cases parts with
    | nil =>
      refine ⟨fun h => ?_, fun c so se h => ?_⟩
      · simp [specParse] at h
      · simp only [specParse, Option.some.injEq, Prod.mk.injEq] at h
        obtain ⟨hc, hso, hse⟩ := h
        subst hc; subst hso; subst hse
        simp [parseGo, pickPath, pickMode]
    | cons p rest =>
      cases hop : opStream p with
      | none =>
        have hlen1 : rest.length ≤ n := by
          simp only [List.length_cons] at hlen
          omega
        refine ⟨fun h => ?_, fun c so se h => ?_⟩
        · cases hs : specParse rest with
          | none =>
            rw [parseGo_word p rest acc so0 sm0 se0 sem0 hop]
            exact (ih rest hlen1 (acc ++ [p]) so0 sm0 se0 sem0).1 hs
          | some x =>
            obtain ⟨c', so', se'⟩ := x
            rw [specParse_word_step p rest c' so' se' hop hs] at h
            exact absurd h (by simp)
        · cases hs : specParse rest with
          | none =>
            rw [specParse_word_step_none p rest hop hs] at h
            exact absurd h (by simp)
          | some x =>
            obtain ⟨c', so', se'⟩ := x
            rw [specParse_word_step p rest c' so' se' hop hs] at h
            simp only [Option.some.injEq, Prod.mk.injEq] at h
            obtain ⟨hc, hso, hse⟩ := h
            subst hc; subst hso; subst hse
            rw [parseGo_word p rest acc so0 sm0 se0 sem0 hop,
              (ih rest hlen1 (acc ++ [p]) so0 sm0 se0 sem0).2 c' so' se' hs]
            simp
      | some bm =>
        obtain ⟨b, m⟩ := bm
        cases rest with
        | nil =>
          refine ⟨fun _ => ?_, fun c so se h => ?_⟩
          · exact parseGo_op_last p b m acc so0 sm0 se0 sem0 hop
          · rw [specParse_op_last p b m hop] at h
            exact absurd h (by simp)
        | cons t rest2 =>
          have hlen2 : rest2.length ≤ n := by
            simp only [List.length_cons] at hlen
            omega
          refine ⟨fun h => ?_, fun c so se h => ?_⟩
          · cases hs : specParse rest2 with
            | none =>
              cases b
              · rw [parseGo_op_false p m t rest2 acc so0 sm0 se0 sem0 hop]
                exact (ih rest2 hlen2 acc so0 sm0 (some t) m).1 hs
              · rw [parseGo_op_true p m t rest2 acc so0 sm0 se0 sem0 hop]
                exact (ih rest2 hlen2 acc (some t) m se0 sem0).1 hs
            | some x =>
              obtain ⟨c', so', se'⟩ := x
              rw [specParse_op_step p b m t rest2 c' so' se' hop hs] at h
              cases b <;> simp at h
          · cases hs : specParse rest2 with
            | none =>
              rw [specParse_op_step_none p b m t rest2 hop hs] at h
              exact absurd h (by simp)
            | some x =>
              obtain ⟨c', so', se'⟩ := x
              rw [specParse_op_step p b m t rest2 c' so' se' hop hs] at h
              cases b
              · rw [if_neg Bool.false_ne_true] at h
                simp only [Option.some.injEq, Prod.mk.injEq] at h
                obtain ⟨hc, hso, hse⟩ := h
                subst hc; subst hso; subst hse
                rw [parseGo_op_false p m t rest2 acc so0 sm0 se0 sem0 hop,
                  (ih rest2 hlen2 acc so0 sm0 (some t) m).2 c' so' se' hs,
                  pickPath_keepLater, pickMode_keepLater]
              · rw [if_pos rfl] at h
                simp only [Option.some.injEq, Prod.mk.injEq] at h
                obtain ⟨hc, hso, hse⟩ := h
                subst hc; subst hso; subst hse
                rw [parseGo_op_true p m t rest2 acc so0 sm0 se0 sem0 hop,
                  (ih rest2 hlen2 acc (some t) m se0 sem0).2 c' so' se' hs,
                  pickPath_keepLater, pickMode_keepLater]

/-! ## Completion lemmas -/

theorem effCache_zero (env : Env) (cache : Cache) (text : String) :
    effCache env cache text 0 = computeCache env text := by
  simp [effCache]

/-! ## Claims -/

/-- Claim C1: the spec states that a completion request with index `i ≥ 1`
on a prefix with two or more candidates returns the candidate at position
`i - 1` of the sorted list when in range and `none` past the end.  The code
is wrong here (and the spec's design notes flag this indexing as a latent
defect): on the reachable state for prefix `t` with candidates
`["top", "type"]` (prior request at index 0 fills the cache), the request
at index 1 does not return `"top"` — the expression
`" ".join(matches[state] + [state - 1][len(text):])` adds a `str` and a
`list`, raising `TypeError`.  This theorem evaluates the embedded
`complete` at exactly that input. -/
theorem c1_cycle_request_raises :
    computeMatches envTop "t" = ["top", "type"] ∧
    (complete envTop (complete envTop initCache "t" 0).2 "t" 1).1 =
      CompOut.err PyErr.typeError := ⟨rfl, rfl⟩

/-- Claim C2 is false as stated ("the REPL loop continues to the next line
without the process terminating"): on the non-blank line `echo >` — a
dangling redirection operator — the loop iteration ends with an uncaught
`IndexError` (outcome `crashed`, not `next`): the process terminates. -/
theorem c2_counterexample :
    runLine envTop "echo >" = RunOutcome.crashed PyErr.indexError ∧
    RunOutcome.crashed PyErr.indexError ≠ RunOutcome.next := ⟨rfl, by decide⟩

/-- Claim C2 (amended): for every non-blank input line, a tokenizer
failure (unterminated quoting, `ValueError`) or a redirection-parser
failure (dangling operator, `IndexError`) is NOT caught by the REPL loop:
the iteration ends with the process crashing on that exception instead of
reporting it and continuing. -/
theorem c2_malformed_line_crashes (env : Env) (line : String)
    (hws : (line.data.all pySplitWs) = false) :
    (∀ e, shlexSplit line = .error e → runLine env line = .crashed e) ∧
    (∀ parts e, shlexSplit line = .ok parts →
      parse_redirection parts = .error e → runLine env line = .crashed e) := by
  constructor
  · intro e h
    simp [runLine, hws, h]
  · intro parts e h1 h2
    simp [runLine, hws, h1, h2]

/-- Witness for C2's amended theorem at two concrete malformed lines:
`echo 'o` (unterminated single quote, `ValueError`) and `echo >`
(dangling operator, `IndexError`). -/
theorem c2_witness :
    runLine envTop (String.mk ['e', 'c', 'h', 'o', ' ', chSq, 'o']) =
      RunOutcome.crashed PyErr.valueError ∧
    runLine envTop "echo >" = RunOutcome.crashed PyErr.indexError :=
  ⟨(c2_malformed_line_crashes envTop (String.mk ['e', 'c', 'h', 'o', ' ', chSq, 'o'])
      rfl).1 PyErr.valueError rfl,
   (c2_malformed_line_crashes envTop "echo >" rfl).2 ["echo", ">"]
      PyErr.indexError rfl rfl⟩

/-- Claim C3 is false as stated ("MUST NOT terminate the REPL loop"): with
a filesystem in which opening `f` raises `OSError`, the line `echo hi > f`
ends the iteration with an uncaught `OSError` (outcome `crashed`, not
`next`): the loop terminates with the process. -/
theorem c3_counterexample :
    runLine envOpenFail "echo hi > f" = RunOutcome.crashed PyErr.osError ∧
    RunOutcome.crashed PyErr.osError ≠ RunOutcome.next := ⟨rfl, by decide⟩

/-- Claim C3 (amended): when opening a redirection target fails, that
command's dispatch fails with `OSError` and the exception propagates out
of the loop body uncaught: the REPL loop terminates (the process crashes)
instead of reporting the failure and reading the next line. -/
theorem c3_open_failure_crashes_loop (env : Env) (line : String)
    (parts cmd : List String) (so : Option String) (sm : Mode)
    (se : Option String) (sem : Mode) (e : PyErr)
    (hws : (line.data.all pySplitWs) = false)
    (htok : shlexSplit line = .ok parts)
    (hparse : parse_redirection parts = .ok (cmd, so, sm, se, sem))
    (hdisp : dispatch env cmd so sm se sem = .error (.exc e)) :
    runLine env line = .crashed e := by
  simp [runLine, hws, htok, hparse, hdisp]

/-- Witness for C3's amended theorem: `echo hi > f` where opening `f`
raises `OSError`. -/
theorem c3_witness :
    runLine envOpenFail "echo hi > f" = RunOutcome.crashed PyErr.osError :=
  c3_open_failure_crashes_loop envOpenFail "echo hi > f"
    ["echo", "hi", ">", "f"] ["echo", "hi"] (some "f") Mode.w none Mode.w
    PyErr.osError rfl rfl rfl rfl

/-- Claim C4: the claim says an unresolvable command with a stderr target
writes `<name>: command not found` to that target using the stderr
stream's recorded mode, so that `2>>` appends.  The code is wrong (code
bug): `run_external`'s not-found branch calls
`open_for_write(stderr_file, stdout_mode)` — the stdout mode, not the
stderr mode.  The line `nope 2>> out.txt` parses to stderr target
`out.txt` with append mode while the stdout mode keeps its default `w`;
dispatch then writes the message to `out.txt` opened with truncate mode
`w`, clobbering prior content instead of appending. -/
theorem c4_not_found_ignores_stderr_mode :
    parse_redirection ["nope", "2>>", "out.txt"] =
      .ok (["nope"], none, Mode.w, some "out.txt", Mode.a) ∧
    dispatch envTop ["nope"] none Mode.w (some "out.txt") Mode.a =
      .ok [Effect.fileWrite "out.txt" Mode.w "nope: command not found\n"] ∧
    Mode.w ≠ Mode.a := ⟨rfl, rfl, by decide⟩

/-- Claim C5: for every word sequence the redirection parser accepts
(`specParse` — written from the spec: each recognized operator consumes
itself and the single immediately following word as its target, all other
words keep their order in the command vector, and the last operator for a
stream determines that stream's target path and mode, with no contiguity
requirement), the code's `parse_redirection` returns exactly the command
vector and the per-stream target path and mode that the spec computes
(modes default to truncate for streams without operators). -/
theorem c5_parse_matches_spec (parts c : List String)
    (so se : Option (String × Mode))
    (h : specParse parts = some (c, so, se)) :
    parse_redirection parts =
      .ok (c, pickPath so none, pickMode so Mode.w,
           pickPath se none, pickMode se Mode.w) := by
  have hmain :=
    (parseGo_specParse parts.length parts le_rfl [] none Mode.w none Mode.w).2
      c so se h
  simpa [parse_redirection] using hmain

/-- Witness for C5 at a sequence with interleaved operators where later
stdout and stderr operators override earlier ones. -/
theorem c5_witness :
    specParse ["echo", ">", "a", "x", "2>>", "e", ">>", "b"] =
      some (["echo", "x"], some ("b", Mode.a), some ("e", Mode.a)) ∧
    parse_redirection ["echo", ">", "a", "x", "2>>", "e", ">>", "b"] =
      .ok (["echo", "x"], some "b", Mode.a, some "e", Mode.a) :=
  ⟨rfl, c5_parse_matches_spec ["echo", ">", "a", "x", "2>>", "e", ">>", "b"]
    ["echo", "x"] (some ("b", Mode.a)) (some ("e", Mode.a)) rfl⟩

/-- Claim C6: a completion request at index 0 on a prefix whose candidate
list has two or more entries returns the longest common prefix's remainder
beyond the typed prefix (without a trailing space) when the LCP is
strictly longer than the prefix, and otherwise rings the bell and returns
`None`. -/
theorem c6_multi_candidate_lcp (env : Env) (cache : Cache) (text : String)
    (h2 : 2 ≤ (computeMatches env text).length) :
    (complete env cache text 0).1 =
      if text.length < (lcpOf (computeMatches env text)).length then
        CompOut.ret (some (strDrop (lcpOf (computeMatches env text)) text.length))
          false
      else CompOut.ret none true := by
  have he : effCache env cache text 0 = computeCache env text := by simp [effCache]
  rcases hms : computeMatches env text with _ | ⟨a, tail⟩
  · rw [hms] at h2; simp at h2
  · rcases tail with _ | ⟨b, rest⟩
    · rw [hms] at h2; simp at h2
    · by_cases hlt : text.length < (lcpOf (computeMatches env text)).length
      · simp only [complete, he, computeCache, hms, completeWith]
        rw [hms] at hlt
        simp [hlt]
      · simp only [complete, he, computeCache, hms, completeWith]
        rw [hms] at hlt
        simp [hlt]

/-- Witness for C6 at the spec's worked example: prefix `t`, candidates
`["top", "type"]`, LCP `t` not longer than the prefix, so the first
request rings the bell and returns `None`. -/
theorem c6_witness :
    2 ≤ (computeMatches envTop "t").length ∧
    (complete envTop initCache "t" 0).1 = CompOut.ret none true :=
  ⟨by decide, (c6_multi_candidate_lcp envTop initCache "t" (by decide)).trans
    (by decide)⟩

/-- Claim C7: whenever the candidate list in effect for a completion call
is a single candidate `m`, the call returns the remainder of `m` beyond
the typed prefix followed by a trailing space — at every request index
(the single-match branch precedes the index tests in the code). -/
theorem c7_single_candidate (env : Env) (cache : Cache) (text : String)
    (state : Nat) (m : String)
    (h : (effCache env cache text state).matchList = [m]) :
    (complete env cache text state).1 =
      CompOut.ret (some (strDrop m text.length ++ " ")) false := by
  simp [complete, completeWith, h]

/-- Witness for C7: prefix `ec` with sole candidate `echo` yields `ho `. -/
theorem c7_witness :
    (effCache envEcho initCache "ec" 0).matchList = ["echo"] ∧
    (complete envEcho initCache "ec" 0).1 = CompOut.ret (some "ho ") false :=
  ⟨rfl, c7_single_candidate envEcho initCache "ec" 0 "echo" rfl⟩

/-- Claim C8: after every recomputation the cached candidate list is
sorted (lexicographically), duplicate-free, and its members are exactly
the built-in names starting with the prefix together with the executable
entries starting with the prefix found in any listable search-path
directory; for the empty prefix this is the union of all built-ins and all
search-path executables. -/
theorem c8_candidate_list_invariant (env : Env) (text : String) :
    (computeCache env text).matchList = computeMatches env text ∧
    List.Sorted strLeRel (computeMatches env text) ∧
    (computeMatches env text).Nodup ∧
    (∀ s, s ∈ computeMatches env text ↔
      ((s ∈ builtins ∧ strStartsWith s text = true) ∨
       ∃ d ∈ env.path, env.isdir d = true ∧
         ∃ l, env.listdir d = some l ∧ s ∈ l ∧
           strStartsWith s text = true ∧ env.xok d s = true)) ∧
    (∀ s, s ∈ computeMatches env "" ↔
      (s ∈ builtins ∨
       ∃ d ∈ env.path, env.isdir d = true ∧
         ∃ l, env.listdir d = some l ∧ s ∈ l ∧ env.xok d s = true)) := by
  refine ⟨rfl, sorted_computeMatches env text, nodup_computeMatches env text,
    fun s => mem_computeMatches env text s, fun s => ?_⟩
  rw [mem_computeMatches]
  simp [strStartsWith_empty]

/-- Claim C9: the non-blank line `> f` is accepted by the REPL
(`command.split()` is nonempty), tokenizes to `[">", "f"]`, and leaves an
empty command vector after redirection parsing; dispatch then evaluates
`parts[0]` in `handle_exit` on that empty vector, raising `IndexError` —
the dispatch path is not total on empty command vectors. -/
theorem c9_empty_command_vector_crashes :
    (("> f").data.all pySplitWs) = false ∧
    shlexSplit "> f" = .ok [">", "f"] ∧
    parse_redirection [">", "f"] = .ok ([], some "f", Mode.w, none, Mode.w) ∧
    handle_exit [] = .error (.exc .indexError) ∧
    runLine envTop "> f" = .crashed PyErr.indexError :=
  ⟨rfl, rfl, rfl, rfl, rfl⟩

/-- Claim C10: `find_executable` accepts only regular files with the
execute bit while `compute_matches` accepts any listed entry with the
execute bit; hence on a coherent filesystem every resolvable name matching
the prefix is among the completion candidates, and for some search-path
contents (a subdirectory `sub` with the execute bit) the candidate set
strictly contains the resolvable names: `sub` completes but does not
resolve, and it is not a built-in. -/
theorem c10_completion_superset_of_resolution :
    (∀ env text name fp, Coherent env → find_executable env name = some fp →
      strStartsWith name text = true → name ∈ computeMatches env text) ∧
    (∃ env name, name ∈ computeMatches env "" ∧
      find_executable env name = none ∧ name ∉ builtins) := by
  constructor
  · intro env text name fp hcoh hres hpre
    obtain ⟨d, hd, hfile, hx⟩ := findExecGo_mem env name env.path fp hres
    obtain ⟨hdir, l, hl, hmem⟩ := hcoh d name hfile
    rw [mem_computeMatches]
    exact Or.inr ⟨d, hd, hdir, l, hl, hmem, hpre, hx⟩
  · exact ⟨envSubdir, "sub", by decide, by decide, by decide⟩
